import Mathlib

/-!
Verification of the SmallSrcyDB card-collection tool (src/convert.py).

The development shallowly embeds the two cores of the program:

* the interactive mutation/undo engine of the `collection` branch
  (functions `check_target_location`, `search_action`, `move_card`,
  `undo_last_transaction`, lines 424-560 and 681-760 of convert.py), as a
  state machine over explicit store states; sqlite rows become list
  entries, generated integer primary keys become explicit counters, and
  the blocking yes/no dialogs become boolean parameters (the answer) plus
  an output list recording which dialogs were raised;

* the allocation pipeline of the `search` branch (lines 870-985):
  deck-list parsing, unknown-card detection, the target-location filter,
  the LP-relaxation data built for `scipy.optimize.linprog`, and the
  greedy rounding walk.  The LP solver itself is the external
  `scipy` collaborator, so the greedy walk is a function of the weight
  vector the solver returns; the ranking `sorted(enumerate(res.x),
  key=..., reverse=True)` is embedded as a stable descending insertion
  sort, extensionally equal to Python's stable sort.

String helpers of the Python runtime that the kernel cannot evaluate
(`str.strip`, `lower()` of sqlite) are embedded at the character-list
level with identical behaviour on the inputs used here.
-/

namespace SmallSrcyDB

/-- A catalog card row (table `cards`), restricted to the columns the
embedded logic reads: primary key `id` and display `name`. -/
structure CardRow where
  id : String
  name : String
deriving DecidableEq, Repr

/-- A storage-location row (table `locations`): generated integer key and
the composite human key `(type, reference)`. -/
structure LocationRow where
  id : Nat
  type : String
  ref : String
deriving DecidableEq, Repr

/-- A collection row (table `collection`): one physically owned copy.
`location` is an `Option` because the schema permits NULL there and the
add path of `search_action` can insert NULL (see the C4 analysis). -/
structure CollectionRow where
  id : Nat
  card_id : String
  language : String
  location : Option Nat
deriving DecidableEq, Repr

/-- A transaction record pushed on the global `transactions` list:
`("location", [id])`, `("collection", ids)` or
`("move", ids, from_id, to_id)` in the Python source. -/
inductive TransRec where
  | location (ids : List Nat)
  | collection (ids : List Nat)
  | move (ids : List Nat) (from_id to_id : Nat)
deriving DecidableEq, Repr

/-- Confirmation dialogs the engine can raise (each a blocking
`Message(...).show()` call in the source). The Null-Action message of
`move_card` is constructed but never shown (`.show()` missing in the
source), so it does not appear here. -/
inductive Dialog where
  | newLocation
  | overshoot
  | undo
  | tooMany
deriving DecidableEq, Repr

/-- The notebook tab selected when a key event fires: tab 0 = Add Cards,
tab 1 = Search Cards. `undo_last_transaction` branches on it. -/
inductive Tab where
  | add
  | search
deriving DecidableEq, Repr

/-- The two mutable stores, plus counters standing for sqlite's generated
INTEGER PRIMARY KEY values (fresh ids strictly increase). -/
structure DBState where
  collection : List CollectionRow
  locations : List LocationRow
  nextCollectionId : Nat
  nextLocationId : Nat
deriving DecidableEq, Repr

/-- Full interactive-session state: stores plus the global undo stack. -/
structure AppState where
  db : DBState
  transactions : List TransRec
deriving DecidableEq, Repr

/-- Lookup of a location by its composite key, `SELECT id FROM locations
WHERE type = ? AND reference = ?` (first match, as `fetchone`). -/
def lookupLocation (db : DBState) (ty rf : String) : Option Nat :=
  (db.locations.find? (fun l => l.type == ty && l.ref == rf)).map (fun l => l.id)

/-- Embedding of `check_target_location` (convert.py lines 424-452).
The `REG_LOCATION` match result is passed as `tok` (`none` = the token
did not parse, the function prints and returns `None`).  On a missing
location it raises the New-Location dialog; `yes` inserts the row,
commits and pushes a `("location", [id])` record, `no` returns `None`
with no changes.  Returns the resolved id (if any), the successor state
and the dialogs raised. -/
def check_target_location (s : AppState) (tok : Option (String × String))
    (answerCreate : Bool) : Option Nat × AppState × List Dialog :=
  match tok with
  | none => (none, s, [])
  | some (ty, rf) =>
    match lookupLocation s.db ty rf with
    | some i => (some i, s, [])
    | none =>
      if answerCreate then
        (some s.db.nextLocationId,
         { db := { s.db with
                     locations := s.db.locations ++
                       [{ id := s.db.nextLocationId, type := ty, ref := rf }],
                     nextLocationId := s.db.nextLocationId + 1 },
           transactions := s.transactions ++ [TransRec.location [s.db.nextLocationId]] },
         [Dialog.newLocation])
      else (none, s, [Dialog.newLocation])

/-- Query `SELECT COUNT(*) FROM collection WHERE card_id = ?`. -/
def countCard (db : DBState) (scry_id : String) : Nat :=
  (db.collection.filter (fun r => r.card_id == scry_id)).length

/-- The insertion loop of `search_action`: n single-row INSERTs, each
returning its generated id; returns the new store and the accumulated
`buffer` of ids. -/
def addEntries (db : DBState) (scry_id lan : String) (loc : Option Nat) (n : Nat) :
    DBState × List Nat :=
  ({ db with
       collection := db.collection ++ (List.range n).map (fun i =>
         { id := db.nextCollectionId + i, card_id := scry_id,
           language := lan, location := loc }),
       nextCollectionId := db.nextCollectionId + n },
   (List.range n).map (fun i => db.nextCollectionId + i))

/-- Embedding of the Add-Cards half of `search_action` (convert.py lines
518-555).  Mirrors the source exactly: the `n <= 0` early return comes
first; `check_target_location` is called and its result used as the
location of the inserted rows even when it is `None` (the source never
checks); the over-4 Overshoot dialog may abort after that; finally `n`
rows are inserted and one `("collection", ids)` record pushed. -/
def search_action (s : AppState) (scry_id lan : String)
    (tok : Option (String × String)) (n : Int)
    (answerCreate answerOvershoot : Bool) : AppState × List Dialog :=
  if n ≤ 0 then (s, [])
  else
    let r1 := check_target_location s tok answerCreate
    let s1 := r1.2.1
    let new_total : Int := n + (countCard s1.db scry_id : Int)
    if 4 < new_total then
      if answerOvershoot then
        let r2 := addEntries s1.db scry_id lan r1.1 n.toNat
        ({ db := r2.1, transactions := s1.transactions ++ [TransRec.collection r2.2] },
         r1.2.2 ++ [Dialog.overshoot])
      else (s1, r1.2.2 ++ [Dialog.overshoot])
    else
      let r2 := addEntries s1.db scry_id lan r1.1 n.toNat
      ({ db := r2.1, transactions := s1.transactions ++ [TransRec.collection r2.2] },
       r1.2.2)

/-- The rows at a given source location for a given card, in store order:
`SELECT collection.id FROM collection ... WHERE locations.id = ? AND
collection.card_id = ?`. -/
def entriesAt (db : DBState) (loc : Nat) (scry_id : String) : List CollectionRow :=
  db.collection.filter (fun r => r.location == some loc && r.card_id == scry_id)

/-- Query `UPDATE collection SET location = ? WHERE id IN (...)`. -/
def setLocations (db : DBState) (moveIds : List Nat) (loc : Nat) : DBState :=
  { db with
      collection := db.collection.map (fun r =>
        if moveIds.contains r.id then { r with location := some loc } else r) }

/-- Embedding of the inner `move_card` of `move_card_between_collections`
(convert.py lines 708-752).  `from_nr` is the row count at the source
(the window data equals the live count in this single-user model);
requesting more raises the ok-dialog and returns; an unresolved
destination returns; destination equal to source returns (the source
builds a Null-Action message but never shows it); otherwise the first
`nr` matching rows (`fetchmany(nr)`) are reassigned and one
`("move", ids, from, to)` record is pushed. -/
def move_card (s : AppState) (scry_id : String) (from_id : Nat) (nr : Nat)
    (tok : Option (String × String)) (answerCreate : Bool) : AppState × List Dialog :=
  let from_nr := (entriesAt s.db from_id scry_id).length
  if from_nr < nr then (s, [Dialog.tooMany])
  else
    let r1 := check_target_location s tok answerCreate
    match r1.1 with
    | none => (r1.2.1, r1.2.2)
    | some location_id =>
      if location_id == from_id then (r1.2.1, r1.2.2)
      else
        let cards_to_move := ((entriesAt r1.2.1.db from_id scry_id).take nr).map
          (fun r => r.id)
        ({ db := setLocations r1.2.1.db cards_to_move location_id,
           transactions := r1.2.1.transactions ++
             [TransRec.move cards_to_move from_id location_id] },
         r1.2.2)

/-- Query `DELETE FROM collection WHERE collection.id IN (...)`. -/
def deleteCollection (db : DBState) (ids : List Nat) : DBState :=
  { db with collection := db.collection.filter (fun r => !(ids.contains r.id)) }

/-- Query `DELETE FROM locations WHERE locations.id = ?`. -/
def deleteLocationRow (db : DBState) (i : Nat) : DBState :=
  { db with locations := db.locations.filter (fun l => l.id != i) }

/-- Embedding of `undo_last_transaction` (convert.py lines 454-516).
Only `transactions[-1]` is ever inspected; tab 0 handles `collection`
and `location` tops, tab 1 handles `move` tops, every other combination
falls through with no effect.  A confirmed undo reverts the store rows
named by the top record and pops it (`transactions.pop()`); declining
leaves everything unchanged.  For a `location` record the source deletes
only `ids[0]` (the record is always a singleton; an empty id list would
crash the source before any store access and is embedded as a no-op). -/
def undo_last_transaction (s : AppState) (tab : Tab) (answer : Bool) :
    AppState × List Dialog :=
  match tab with
  | Tab.add =>
    match s.transactions.getLast? with
    | some (TransRec.collection ids) =>
      if answer then
        ({ db := deleteCollection s.db ids, transactions := s.transactions.dropLast },
         [Dialog.undo])
      else (s, [Dialog.undo])
    | some (TransRec.location ids) =>
      match ids with
      | [] => (s, [])
      | i :: _ =>
        if answer then
          ({ db := deleteLocationRow s.db i, transactions := s.transactions.dropLast },
           [Dialog.undo])
        else (s, [Dialog.undo])
    | _ => (s, [])
  | Tab.search =>
    match s.transactions.getLast? with
    | some (TransRec.move ids old _cur) =>
      if answer then
        ({ db := setLocations s.db ids old, transactions := s.transactions.dropLast },
         [Dialog.undo])
      else (s, [Dialog.undo])
    | _ => (s, [])

/-- One interactive user action: the event alphabet of the mutation/undo
engine. -/
inductive Event where
  | add (scry_id lan : String) (tok : Option (String × String)) (n : Int)
      (answerCreate answerOvershoot : Bool)
  | move (scry_id : String) (from_id : Nat) (nr : Nat)
      (tok : Option (String × String)) (answerCreate : Bool)
  | undo (tab : Tab) (answer : Bool)

/-- The step function of the interactive engine: dispatches one event. -/
def step (s : AppState) : Event → AppState × List Dialog
  | Event.add a b tok n ac ao => search_action s a b tok n ac ao
  | Event.move a f nr tok ac => move_card s a f nr tok ac
  | Event.undo t ans => undo_last_transaction s t ans

/-! The `search` branch: wish-list parsing and allocation pipeline. -/

/-- Character-level embedding of Python `str.strip()` (the kernel cannot
evaluate `String.trim`): drop whitespace from both ends. -/
def strip (s : String) : List Char :=
  ((s.data.dropWhile Char.isWhitespace).reverse.dropWhile Char.isWhitespace).reverse

/-- One step of the deck-list parse loop: `REG_CARD_NAME = re.compile
(r"1 (.*)")` matched against `card.strip()` (convert.py line 889, 902).
The regex demands the literal prefix `1` + space and captures the rest;
any other quantity or shape fails. -/
def parseCardLine (line : String) : Option (List Char) :=
  match strip line with
  | '1' :: ' ' :: rest => some rest
  | _ => none

/-- The parse loop of the search branch (convert.py lines 901-906): on
the first line that fails to match, the program prints that single line
and calls `exit(1)`; later lines are never examined.  Embedded as an
`Except` whose error is the (stripped) first offending line. -/
def parseCards : List String → Except (List Char) (List (List Char))
  | [] => Except.ok []
  | c :: rest =>
    match parseCardLine c with
    | none => Except.error (strip c)
    | some nm => (parseCards rest).map (fun l => nm :: l)

/-- The offending lines the failure report shows the user: the single
first bad line on failure, nothing on success. -/
def parseReported (ls : List String) : List (List Char) :=
  match parseCards ls with
  | Except.error e => [e]
  | Except.ok _ => []

/-- Character-level embedding of sqlite `lower()` on a name. -/
def lowerName (s : String) : List Char := s.data.map Char.toLower

/-- The read-only data the search branch consumes: catalog and
collection rows (locations are only needed for display labels). -/
structure SearchDB where
  cards : List CardRow
  collection : List CollectionRow
deriving Repr

/-- Embedding of the `missing_cards` query (convert.py lines 919-923):
requested values with no case-insensitive catalog match
(`LEFT JOIN cards ON lower(json.value) = lower(cards.name) WHERE
cards.id IS NULL`). -/
def missing_cards (db : SearchDB) (req : List String) : List String :=
  req.filter (fun v => db.cards.all (fun c => !(lowerName c.name == lowerName v)))

/-- Names (catalog `cards.name`) of the entries stored at one location:
the inner query of both target-location filters. -/
def namesAtLocation (db : SearchDB) (loc : Nat) : List String :=
  (db.collection.filter (fun r => r.location == some loc)).filterMap
    (fun r => (db.cards.find? (fun c => c.id == r.card_id)).map (fun c => c.name))

/-- Embedding of the target-location filter actually in the search
branch (convert.py lines 932-938): the query selects every requested
value `NOT IN` the set of names stored at the target location, and the
loop `cards.remove(card_in_collection)` erases each of them from the
request list.  (The comment above it claims the opposite: `remove cards
already in collection`.) -/
def removeCardsAtTarget (db : SearchDB) (req : List String) (target : Nat) : List String :=
  (req.filter (fun v => !((namesAtLocation db target).contains v))).foldl
    (fun acc v => acc.erase v) req

/-- The requested names present (by exact, case-sensitive `json.value =
cards.name` join) at one location, distinct, as in the coverage query of
convert.py lines 939-948. -/
def matchedAt (db : SearchDB) (req : List String) (loc : Nat) : List String :=
  (((db.collection.filter (fun r => r.location == some loc)).filterMap
    (fun r => (db.cards.find? (fun c => c.id == r.card_id)).map (fun c => c.name))).filter
    (fun nm => req.contains nm)).dedup

/-- The candidate locations of the coverage query: the `GROUP BY
coll.location` groups, i.e. the distinct locations holding at least one
requested (exactly-matching) card. -/
def coverageLocations (db : SearchDB) (req : List String) : List Nat :=
  ((db.collection.filterMap (fun r => r.location)).dedup).filter
    (fun loc => !(matchedAt db req loc).isEmpty)

/-- The coverage set of one location: the wish-list indices
(`cards.index(name)`) present there. -/
def coverageSet (db : SearchDB) (req : List String) (loc : Nat) : Finset ℕ :=
  ((matchedAt db req loc).map (fun nm => req.indexOf nm)).toFinset

/-- The list `sets` of the source: one coverage set per candidate
location. -/
def coverageSetsOf (db : SearchDB) (req : List String) : List (Finset ℕ) :=
  (coverageLocations db req).map (fun loc => coverageSet db req loc)

/-- The universe `reduce(set.union, sets)` (convert.py line 952); the
fold is seeded with the empty set (Python's `reduce` demands a nonempty
list and crashes otherwise, which the `assert` below would also catch). -/
def universeOf (sets : List (Finset ℕ)) : Finset ℕ :=
  sets.foldr (fun a b => a ∪ b) ∅

/-- The LP data handed to `scipy.optimize.linprog` (convert.py lines
954-964): objective coefficients `c`, inequality rows `A_ub`, right-hand
sides `b_ub` and the variable bounds.  `linprog` is called without a
`bounds` argument, so scipy's documented default `(0, None)` applies:
lower bound 0, no upper bound. -/
structure LPData where
  c : List Int
  A_ub : List (List Int)
  b_ub : List Int
  lb : ℚ
  ub : Option ℚ
deriving Repr

/-- Building the LP relaxation from the coverage sets: `c = [1] * m`;
for every universe element `e` one row with `-1` at exactly the
locations containing `e` and right-hand side `-1` (encoding the covering
constraint as `-Σ ≤ -1`); default bounds. -/
def buildLP (sets : List (Finset ℕ)) (universeL : List ℕ) : LPData :=
  { c := List.replicate sets.length 1,
    A_ub := universeL.map (fun e => sets.map (fun s => if e ∈ s then (-1 : Int) else 0)),
    b_ub := universeL.map (fun _ => (-1 : Int)),
    lb := 0,
    ub := none }

/-- Dot product of an integer row with a rational point (zip semantics:
lengths agree in every LP the source builds). -/
def dotProd (a : List Int) (x : List ℚ) : ℚ :=
  (a.zip x).foldr (fun p acc => (p.1 : ℚ) * p.2 + acc) 0

/-- The total weight the point `x` puts on the locations containing `e`:
the left-hand side `Σ x_j` over `j` with `e ∈ S_j` of the covering
constraint. -/
def coverSum (sets : List (Finset ℕ)) (e : ℕ) (x : List ℚ) : ℚ :=
  (sets.zip x).foldr (fun p acc => if e ∈ p.1 then p.2 + acc else acc) 0

/-- A point satisfying the constraint system the source actually builds:
every `A_ub` row at most its `b_ub`, and every coordinate within the
bounds (lower bound always, upper bound only if one is present). -/
def lpFeasible (lp : LPData) (x : List ℚ) : Prop :=
  (∀ i, i < lp.A_ub.length → dotProd (lp.A_ub.getD i []) x ≤ (lp.b_ub.getD i 0 : ℚ)) ∧
  (∀ j, j < x.length → lp.lb ≤ x.getD j 0 ∧ ∀ u, lp.ub = some u → x.getD j 0 ≤ u)

/-- Modelled from the claim's words, for comparison: the LP the spec
describes, with every variable confined to the interval `[0, 1]`. -/
def claimLPFeasible (sets : List (Finset ℕ)) (universeL : List ℕ) (x : List ℚ) : Prop :=
  (∀ e ∈ universeL, 1 ≤ coverSum sets e x) ∧
  (∀ j, j < x.length → 0 ≤ x.getD j 0 ∧ x.getD j 0 ≤ 1)

/-- Stable insertion of an index into a weight-descending list: `i` goes
before the first index of strictly smaller weight, hence after all
earlier indices of equal weight. -/
def insertDesc (x : List ℚ) (i : ℕ) : List ℕ → List ℕ
  | [] => [i]
  | j :: rest =>
    if x.getD j 0 < x.getD i 0 then i :: j :: rest else j :: insertDesc x i rest

/-- The ranking `sorted(enumerate(res.x), key=lambda p: p[1],
reverse=True)` of convert.py line 968: the location indices `0..m-1` in
weight-descending order, ties kept in enumeration order (Python's sort
is stable); embedded as a stable insertion sort, extensionally equal to
any stable sort by the same key. -/
def ranked (x : List ℚ) : List ℕ :=
  (List.range x.length).foldl (fun acc i => insertDesc x i acc) []

/-- The greedy rounding walk (convert.py lines 966-982) over a given
visiting order.  For each visited location the source first appends the
location header row to `hits` unconditionally, then appends one pull row
per card index at that location not yet collected, then breaks as soon
as the collected size reaches the universe size `k`.  A visited location
becomes the group `(location id, set of newly collected indices)`; the
pull rows of a group are exactly its newly collected indices (each pull
row also names one arbitrarily chosen physical copy, which the claims do
not constrain). -/
def greedyGo (sets : List (Finset ℕ)) (ids : List ℕ) (k : ℕ) :
    List ℕ → Finset ℕ → List (ℕ × Finset ℕ) → Finset ℕ × List (ℕ × Finset ℕ)
  | [], collected, hits => (collected, hits)
  | s :: rest, collected, hits =>
    let news := sets.getD s ∅ \ collected
    let collected2 := collected ∪ news
    let hits2 := hits ++ [(ids.getD s 0, news)]
    if collected2.card = k then (collected2, hits2)
    else greedyGo sets ids k rest collected2 hits2

/-- The full rounding phase: rank the locations by the solver's weights,
then walk them greedily starting from the empty collected set. -/
def greedy (sets : List (Finset ℕ)) (ids : List ℕ) (k : ℕ) (x : List ℚ) :
    Finset ℕ × List (ℕ × Finset ℕ) :=
  greedyGo sets ids k (ranked x) ∅ []

/-- Union of the pull groups of an emitted plan: all indices that get a
pull entry. -/
def unionGroups (l : List (ℕ × Finset ℕ)) : Finset ℕ :=
  l.foldr (fun g acc => g.2 ∪ acc) ∅

/-- The notebook tab on which `undo_last_transaction` handles a record
of the given kind: `collection` and `location` tops on tab 0 (Add
Cards), `move` tops on tab 1 (Search Cards). -/
def undoTab : TransRec → Tab
  | TransRec.collection _ => Tab.add
  | TransRec.location _ => Tab.add
  | TransRec.move _ _ _ => Tab.search

/-- Shape invariant of records the engine itself pushes, asserted by the
source (`assert len(transactions[-1][1]) == 1` for location records):
a `location` record carries exactly one id. -/
def pushedRec : TransRec → Prop
  | TransRec.location ids => ids.length = 1
  | _ => True

/-- Concrete store for the C8 analysis: the catalog owns `Lightning
Bolt` (id `c1`) and one physical copy of it sits at location 1. -/
def c8db : SearchDB :=
  { cards := [{ id := "c1", name := "Lightning Bolt" }],
    collection := [{ id := 1, card_id := "c1", language := "en", location := some 1 }] }

/-- Concrete store for the C3 analysis: catalog cards `A` and `B`, one
copy of `A` stored at location 1 (the request target), no copy of `B`
there. -/
def c3db : SearchDB :=
  { cards := [{ id := "a", name := "A" }, { id := "b", name := "B" }],
    collection := [{ id := 1, card_id := "a", language := "en", location := some 1 }] }

/-- A fresh interactive session over empty stores. -/
def emptyApp : AppState :=
  { db := { collection := [], locations := [], nextCollectionId := 1, nextLocationId := 1 },
    transactions := [] }

/-- A session in which exactly one mutation happened: one copy was added
(collection row 1) and its `Add` record is the whole undo stack. -/
def oneAddApp : AppState :=
  { db := { collection := [{ id := 1, card_id := "c", language := "en", location := none }],
            locations := [], nextCollectionId := 2, nextLocationId := 1 },
    transactions := [TransRec.collection [1]] }

/-- A session for the move scenarios: two copies of card `c` at location
1, a second location 2 already existing, empty undo stack. -/
def moveApp : AppState :=
  { db := { collection := [{ id := 1, card_id := "c", language := "en", location := some 1 },
                           { id := 2, card_id := "c", language := "en", location := some 1 }],
            locations := [{ id := 1, type := "Box", ref := "A" },
                          { id := 2, type := "Box", ref := "B" }],
            nextCollectionId := 3, nextLocationId := 3 },
    transactions := [] }

/-! Helper lemmas about the greedy walk, the ranking and the engine. -/

theorem unionGroups_append (l₁ l₂ : List (ℕ × Finset ℕ)) :
    unionGroups (l₁ ++ l₂) = unionGroups l₁ ∪ unionGroups l₂ := by
  induction l₁ with
  | nil => simp [unionGroups]
  | cons g l ih =>
    simp only [List.cons_append, unionGroups, List.foldr_cons] at *
    rw [ih]
    exact (Finset.union_assoc _ _ _).symm

theorem subset_unionGroups {g : ℕ × Finset ℕ} {l : List (ℕ × Finset ℕ)} (h : g ∈ l) :
    g.2 ⊆ unionGroups l := by
  induction l with
  | nil => cases h
  | cons a l ih =>
    rcases List.mem_cons.mp h with rfl | h
    · exact Finset.subset_union_left
    · exact (ih h).trans Finset.subset_union_right

theorem mem_unionGroups {e : ℕ} {l : List (ℕ × Finset ℕ)} (h : e ∈ unionGroups l) :
    ∃ g ∈ l, e ∈ g.2 := by
  induction l with
  | nil => simp [unionGroups] at h
  | cons a l ih =>
    simp only [unionGroups, List.foldr_cons] at h
    rcases Finset.mem_union.mp h with h | h
    · exact ⟨a, List.mem_cons_self _ _, h⟩
    · obtain ⟨g, hg, hge⟩ := ih h
      exact ⟨g, List.mem_cons_of_mem _ hg, hge⟩

theorem greedyGo_prefix (sets : List (Finset ℕ)) (ids : List ℕ) (k : ℕ) :
    ∀ (order : List ℕ) (collected : Finset ℕ) (hits : List (ℕ × Finset ℕ)),
    ∃ t, (greedyGo sets ids k order collected hits).2 = hits ++ t := by
  intro order
  induction order with
  | nil => intro collected hits; exact ⟨[], by simp [greedyGo]⟩
  | cons s rest ih =>
    intro collected hits
    simp only [greedyGo]
    split
    · exact ⟨[(ids.getD s 0, sets.getD s ∅ \ collected)], rfl⟩
    · obtain ⟨t, ht⟩ := ih (collected ∪ (sets.getD s ∅ \ collected))
        (hits ++ [(ids.getD s 0, sets.getD s ∅ \ collected)])
      rw [ht, List.append_assoc]
      exact ⟨_, rfl⟩

theorem getD_subset_of_forall_mem {sets : List (Finset ℕ)} {u : Finset ℕ}
    (h : ∀ t ∈ sets, t ⊆ u) : ∀ j, sets.getD j ∅ ⊆ u := by
  intro j
  rw [List.getD_eq_getElem?_getD]
  cases hj : sets[j]? with
  | none => simp
  | some t => simpa using h t (List.getElem?_mem hj)

theorem greedyGo_subset_range {sets : List (Finset ℕ)} {ids : List ℕ} {k : ℕ}
    (hsets : ∀ j, sets.getD j ∅ ⊆ Finset.range k) :
    ∀ (order : List ℕ) (collected : Finset ℕ) (hits : List (ℕ × Finset ℕ)),
    collected ⊆ Finset.range k →
    (greedyGo sets ids k order collected hits).1 ⊆ Finset.range k := by
  intro order
  induction order with
  | nil => intro collected hits h; simpa [greedyGo] using h
  | cons s rest ih =>
    intro collected hits h
    have h2 : collected ∪ (sets.getD s ∅ \ collected) ⊆ Finset.range k :=
      Finset.union_subset h ((Finset.sdiff_subset).trans (hsets s))
    simp only [greedyGo]
    split
    · exact h2
    · exact ih _ _ h2

theorem greedyGo_covers {sets : List (Finset ℕ)} {ids : List ℕ} {k : ℕ}
    (hsets : ∀ j, sets.getD j ∅ ⊆ Finset.range k) :
    ∀ (order : List ℕ) (collected : Finset ℕ) (hits : List (ℕ × Finset ℕ)),
    collected ⊆ Finset.range k →
    (∀ e ∈ Finset.range k, e ∈ collected ∨ ∃ s ∈ order, e ∈ sets.getD s ∅) →
    (greedyGo sets ids k order collected hits).1 = Finset.range k := by
  intro order
  induction order with
  | nil =>
    intro collected hits hsub hcov
    simp only [greedyGo]
    refine Finset.Subset.antisymm hsub (fun e he => ?_)
    rcases hcov e he with h | ⟨s, hs, _⟩
    · exact h
    · cases hs
  | cons s rest ih =>
    intro collected hits hsub hcov
    have h2 : collected ∪ (sets.getD s ∅ \ collected) ⊆ Finset.range k :=
      Finset.union_subset hsub ((Finset.sdiff_subset).trans (hsets s))
    simp only [greedyGo]
    split
    · next hcard =>
      exact (Finset.eq_of_subset_of_card_le h2 (by rw [hcard, Finset.card_range])).symm ▸ rfl
    · refine ih _ _ h2 (fun e he => ?_)
      rcases hcov e he with h | ⟨j, hj, hmem⟩
      · exact Or.inl (Finset.mem_union_left _ h)
      · rcases List.mem_cons.mp hj with rfl | hj
        · by_cases hc : e ∈ collected
          · exact Or.inl (Finset.mem_union_left _ hc)
          · exact Or.inl (Finset.mem_union_right _ (Finset.mem_sdiff.mpr ⟨hmem, hc⟩))
        · exact Or.inr ⟨j, hj, hmem⟩

theorem greedyGo_fst_subset_groups (sets : List (Finset ℕ)) (ids : List ℕ) (k : ℕ) :
    ∀ (order : List ℕ) (collected : Finset ℕ) (hits : List (ℕ × Finset ℕ)),
    (greedyGo sets ids k order collected hits).1 ⊆
      collected ∪ unionGroups (greedyGo sets ids k order collected hits).2 := by
  intro order
  induction order with
  | nil => intro collected hits; simp [greedyGo]
  | cons s rest ih =>
    intro collected hits
    simp only [greedyGo]
    split
    · next hcard =>
      refine Finset.union_subset (Finset.subset_union_left) ?_
      refine Finset.Subset.trans ?_ Finset.subset_union_right
      apply subset_unionGroups (g := (ids.getD s 0, sets.getD s ∅ \ collected))
      simp
    · refine (ih (collected ∪ (sets.getD s ∅ \ collected))
        (hits ++ [(ids.getD s 0, sets.getD s ∅ \ collected)])).trans ?_
      refine Finset.union_subset ?_ Finset.subset_union_right
      refine Finset.union_subset Finset.subset_union_left ?_
      refine Finset.Subset.trans ?_ Finset.subset_union_right
      obtain ⟨t, ht⟩ := greedyGo_prefix sets ids k rest
        (collected ∪ (sets.getD s ∅ \ collected))
        (hits ++ [(ids.getD s 0, sets.getD s ∅ \ collected)])
      apply subset_unionGroups (g := (ids.getD s 0, sets.getD s ∅ \ collected))
      rw [ht]
      simp

theorem greedyGo_no_early_cover {sets : List (Finset ℕ)} {ids : List ℕ} {k : ℕ} :
    ∀ (order : List ℕ) (collected : Finset ℕ) (hits : List (ℕ × Finset ℕ)),
    collected.card ≠ k → unionGroups hits = collected →
    ∀ t, hits.length ≤ t → t < (greedyGo sets ids k order collected hits).2.length →
    unionGroups ((greedyGo sets ids k order collected hits).2.take t) ≠ Finset.range k := by
  intro order
  induction order with
  | nil =>
    intro collected hits hcard hug t hle hlt
    simp only [greedyGo] at hlt
    omega
  | cons s rest ih =>
    intro collected hits hcard hug t hle hlt
    have hug2 : unionGroups (hits ++ [(ids.getD s 0, sets.getD s ∅ \ collected)]) =
        collected ∪ (sets.getD s ∅ \ collected) := by
      rw [unionGroups_append, hug]
      simp [unionGroups]
    simp only [greedyGo] at hlt ⊢
    rcases Nat.eq_or_lt_of_le hle with rfl | hgt
    · -- t = hits.length: the walk continued past `hits`, whose union is
      -- `collected`, and `collected` does not yet have full cardinality.
      intro hEq
      obtain ⟨tail, htail⟩ := greedyGo_prefix sets ids k (s :: rest) collected hits
      have htake : (greedyGo sets ids k (s :: rest) collected hits).2.take hits.length = hits := by
        rw [htail]; exact List.take_left hits tail
      simp only [greedyGo] at htake htail
      rw [htake, hug] at hEq
      exact hcard (by rw [hEq, Finset.card_range])
    · split at hlt
      · next hcEq =>
        -- break: the emitted list is `hits ++ [g]`, so `t` cannot exceed
        -- `hits.length` strictly while staying below the length.
        exfalso
        simp only [List.length_append, List.length_singleton] at hlt
        omega
      · next hcNe =>
        rw [if_neg hcNe]
        exact ih (collected ∪ (sets.getD s ∅ \ collected))
          (hits ++ [(ids.getD s 0, sets.getD s ∅ \ collected)]) hcNe hug2 t
          (by simpa using hgt) hlt

theorem insertDesc_perm (x : List ℚ) (i : ℕ) :
    ∀ l : List ℕ, (insertDesc x i l).Perm (i :: l) := by
  intro l
  induction l with
  | nil => exact List.Perm.refl _
  | cons j rest ih =>
    simp only [insertDesc]
    split
    · exact List.Perm.refl _
    · exact (List.Perm.cons j ih).trans (List.Perm.swap i j rest)

theorem foldl_insertDesc_perm (x : List ℚ) :
    ∀ (l acc : List ℕ), (l.foldl (fun a i => insertDesc x i a) acc).Perm (l ++ acc) := by
  intro l
  induction l with
  | nil => intro acc; exact List.Perm.refl _
  | cons i rest ih =>
    intro acc
    simp only [List.foldl_cons, List.cons_append]
    refine ((ih (insertDesc x i acc)).trans ?_)
    refine (List.Perm.append_left rest (insertDesc_perm x i acc)).trans ?_
    exact List.perm_middle

theorem ranked_perm (x : List ℚ) : (ranked x).Perm (List.range x.length) := by
  simpa [ranked] using foldl_insertDesc_perm x (List.range x.length) []

theorem mem_ranked {x : List ℚ} {j : ℕ} (h : j < x.length) : j ∈ ranked x :=
  (ranked_perm x).mem_iff.mpr (List.mem_range.mpr h)

theorem greedyGo_pairwise (sets : List (Finset ℕ)) (ids : List ℕ) (k : ℕ) :
    ∀ (order : List ℕ) (collected : Finset ℕ) (hits : List (ℕ × Finset ℕ)),
    (∀ g ∈ hits, g.2 ⊆ collected) →
    hits.Pairwise (fun g h => Disjoint g.2 h.2) →
    ((greedyGo sets ids k order collected hits).2).Pairwise (fun g h => Disjoint g.2 h.2) := by
  intro order
  induction order with
  | nil => intro collected hits _ hpw; simpa [greedyGo] using hpw
  | cons s rest ih =>
    intro collected hits hsub hpw
    have hdisj : ∀ g ∈ hits, Disjoint g.2 (sets.getD s ∅ \ collected) :=
      fun g hg => Finset.disjoint_of_subset_left (hsub g hg)
        (Finset.sdiff_disjoint.symm)
    have hpw2 : (hits ++ [(ids.getD s 0, sets.getD s ∅ \ collected)]).Pairwise
        (fun g h => Disjoint g.2 h.2) := by
      refine List.pairwise_append.mpr ⟨hpw, List.pairwise_singleton _ _, ?_⟩
      intro a ha b hb
      rw [List.mem_singleton.mp hb]
      exact hdisj a ha
    have hsub2 : ∀ g ∈ hits ++ [(ids.getD s 0, sets.getD s ∅ \ collected)],
        g.2 ⊆ collected ∪ (sets.getD s ∅ \ collected) := by
      intro g hg
      rcases List.mem_append.mp hg with hg | hg
      · exact (hsub g hg).trans Finset.subset_union_left
      · rw [List.mem_singleton.mp hg]
        exact Finset.subset_union_right
    simp only [greedyGo]
    split
    · exact hpw2
    · exact ih _ _ hsub2 hpw2

theorem greedyGo_headers (sets : List (Finset ℕ)) (ids : List ℕ) (k : ℕ) :
    ∀ (order : List ℕ) (collected : Finset ℕ) (hits : List (ℕ × Finset ℕ)),
    ((greedyGo sets ids k order collected hits).2).map Prod.fst =
      hits.map Prod.fst ++
        (order.take ((greedyGo sets ids k order collected hits).2.length - hits.length)).map
          (fun s => ids.getD s 0) := by
  intro order
  induction order with
  | nil => intro collected hits; simp [greedyGo]
  | cons s rest ih =>
    intro collected hits
    simp only [greedyGo]
    split
    · simp [List.take_succ_cons, Nat.add_sub_cancel_left]
    · obtain ⟨tail, htail⟩ := greedyGo_prefix sets ids k rest
        (collected ∪ (sets.getD s ∅ \ collected))
        (hits ++ [(ids.getD s 0, sets.getD s ∅ \ collected)])
      have hlen : (greedyGo sets ids k rest (collected ∪ (sets.getD s ∅ \ collected))
          (hits ++ [(ids.getD s 0, sets.getD s ∅ \ collected)])).2.length =
          hits.length + 1 + tail.length := by
        rw [htail]; simp; omega
      have hih := ih (collected ∪ (sets.getD s ∅ \ collected))
        (hits ++ [(ids.getD s 0, sets.getD s ∅ \ collected)])
      rw [hih, hlen]
      have h1 : hits.length + 1 + tail.length - (hits.length + 1) = tail.length := by omega
      have h2 : hits.length + 1 + tail.length - hits.length = tail.length + 1 := by omega
      simp only [List.length_append, List.length_singleton, h1, h2, List.take_succ_cons]
      simp

theorem check_target_location_collection (s : AppState) (tok : Option (String × String))
    (ac : Bool) :
    (check_target_location s tok ac).2.1.db.collection = s.db.collection := by
  unfold check_target_location
  split
  · rfl
  · split
    · rfl
    · split <;> rfl

theorem check_target_location_transactions (s : AppState) (tok : Option (String × String))
    (ac : Bool) :
    (check_target_location s tok ac).2.1.transactions = s.transactions ∨
    ∃ t, (check_target_location s tok ac).2.1.transactions = s.transactions ++ [t] := by
  unfold check_target_location
  split
  · exact Or.inl rfl
  · split
    · exact Or.inl rfl
    · split
      · exact Or.inr ⟨_, rfl⟩
      · exact Or.inl rfl

theorem dotProd_cover_row (e : ℕ) :
    ∀ (sets : List (Finset ℕ)) (x : List ℚ),
    dotProd (sets.map (fun s => if e ∈ s then (-1 : Int) else 0)) x = -coverSum sets e x := by
  intro sets
  induction sets with
  | nil => intro x; simp [dotProd, coverSum]
  | cons s ss ih =>
    intro x
    cases x with
    | nil => simp [dotProd, coverSum]
    | cons a as =>
      simp only [List.map_cons, dotProd, coverSum, List.zip_cons_cons, List.foldr_cons]
      have := ih as
      simp only [dotProd, coverSum] at this
      rw [this]
      split <;> push_cast <;> ring

/-! Claim theorems. -/

/-- C1: for every allocation request in which each universe element is
owned at at least one candidate location (so the coverage sets jointly
cover `range k`, which is what the source's
`assert len(universe) == len(cards)` checks), the pull plan emitted by
the greedy walk over the solver-ranked locations contains a pull entry
for every element of the universe, and the walk stops as soon as the
collected set equals the universe: no strict prefix of the emitted
groups already covers `range k`.  The weight vector `x` is whatever
`linprog` returned (one weight per coverage set); `0 < k` holds in every
execution that reaches the walk, since a request with an empty universe
crashes `reduce(set.union, sets)` earlier. -/
theorem C1_pull_plan_covers_universe (sets : List (Finset ℕ)) (ids : List ℕ) (k : ℕ)
    (x : List ℚ) (hlen : x.length = sets.length) (hk : 0 < k)
    (hsub : ∀ t ∈ sets, t ⊆ Finset.range k)
    (hcov : ∀ e ∈ Finset.range k, ∃ j ∈ Finset.range sets.length, e ∈ sets.getD j ∅) :
    (∀ e ∈ Finset.range k, ∃ g ∈ (greedy sets ids k x).2, e ∈ g.2) ∧
    (∀ t, t < (greedy sets ids k x).2.length →
      unionGroups ((greedy sets ids k x).2.take t) ≠ Finset.range k) := by
  have hsets := getD_subset_of_forall_mem hsub
  constructor
  · intro e he
    have hfst : (greedy sets ids k x).1 = Finset.range k := by
      apply greedyGo_covers hsets (ranked x) ∅ [] (Finset.empty_subset _)
      intro a ha
      obtain ⟨j, hj, hmem⟩ := hcov a ha
      exact Or.inr ⟨j, mem_ranked (by rw [hlen]; exact Finset.mem_range.mp hj), hmem⟩
    have hgrp := greedyGo_fst_subset_groups sets ids k (ranked x) ∅ []
    have hmem : e ∈ (∅ : Finset ℕ) ∪ unionGroups (greedy sets ids k x).2 := by
      apply hgrp
      show e ∈ (greedy sets ids k x).1
      rw [hfst]; exact he
    rw [Finset.empty_union] at hmem
    exact mem_unionGroups hmem
  · intro t hlt
    exact greedyGo_no_early_cover (ranked x) ∅ []
      (by simpa using hk.ne) rfl t (Nat.zero_le t) hlt

/-- C1 witness: universe of two cards, location 5 holds card 0, location
7 holds both; with solver weights `[0, 1]` the ranking visits 7 first
and the plan covers the universe with the single group `(7, range 2)`. -/
theorem C1_pull_plan_covers_universe_witness :
    ((0 : ℕ) < 2 ∧ ([0, 1] : List ℚ).length = ([{0}, {0, 1}] : List (Finset ℕ)).length ∧
     (∀ t ∈ ([{0}, {0, 1}] : List (Finset ℕ)), t ⊆ Finset.range 2) ∧
     (∀ e ∈ Finset.range 2,
       ∃ j ∈ Finset.range ([{0}, {0, 1}] : List (Finset ℕ)).length,
         e ∈ ([{0}, {0, 1}] : List (Finset ℕ)).getD j ∅)) ∧
    ((∀ e ∈ Finset.range 2, ∃ g ∈ (greedy [{0}, {0, 1}] [5, 7] 2 [0, 1]).2, e ∈ g.2) ∧
     (∀ t, t < (greedy [{0}, {0, 1}] [5, 7] 2 [0, 1]).2.length →
       unionGroups ((greedy [{0}, {0, 1}] [5, 7] 2 [0, 1]).2.take t) ≠ Finset.range 2)) :=
  ⟨⟨by decide, by decide, by decide, by decide⟩,
   C1_pull_plan_covers_universe [{0}, {0, 1}] [5, 7] 2 [0, 1]
     (by decide) (by decide) (by decide) (by decide)⟩

/-- C2 counterexample: with coverage sets `{0,1}, {0,1}, {2,3}, {2,3}`
for locations `10..13` and the (optimal) solver weights `1/2` each, the
ranking keeps enumeration order and the walk appends location 11 to the
plan although it newly covers nothing: the emitted plan contains the
group `(11, ∅)` with no pull entry, refuting "accepted only if it newly
covers at least one card". -/
theorem C2_counterexample_header_without_pull :
    ((11 : ℕ), (∅ : Finset ℕ)) ∈
      (greedy [{0, 1}, {0, 1}, {2, 3}, {2, 3}] [10, 11, 12, 13] 4
        [mkRat 1 2, mkRat 1 2, mkRat 1 2, mkRat 1 2]).2 ∧
    ¬ (∀ g ∈ (greedy [{0, 1}, {0, 1}, {2, 3}, {2, 3}] [10, 11, 12, 13] 4
        [mkRat 1 2, mkRat 1 2, mkRat 1 2, mkRat 1 2]).2, g.2 ≠ ∅) := by
  decide

/-- C2 amended: the walk appends a header group for every location it
visits before the stop condition, in ranked order and regardless of
contribution; pull entries are recorded only for newly covered cards, so
the pull sets of distinct groups are pairwise disjoint (a group of a
contributing location is nonempty, but a non-contributing location still
appears, with an empty pull set). -/
theorem C2_amended_groups_disjoint_headers_ranked (sets : List (Finset ℕ))
    (ids : List ℕ) (k : ℕ) (x : List ℚ) :
    ((greedy sets ids k x).2).Pairwise (fun g h => Disjoint g.2 h.2) ∧
    ((greedy sets ids k x).2).map Prod.fst =
      ((ranked x).take ((greedy sets ids k x).2.length)).map (fun s => ids.getD s 0) := by
  constructor
  · exact greedyGo_pairwise sets ids k (ranked x) ∅ [] (by simp) List.Pairwise.nil
  · have h := greedyGo_headers sets ids k (ranked x) ∅ []
    simpa [greedy] using h

/-- C6 counterexample: `linprog` is called without a `bounds` argument,
so scipy's default `(0, None)` applies and the variables have no upper
bound.  For the single-location instance `sets = [{0}]` the point
`x = [2]` satisfies every constraint the source builds, but violates the
interval `[0, 1]` the claim asserts. -/
theorem C6_counterexample_no_upper_bound :
    lpFeasible (buildLP [{0}] [0]) [2] ∧ ¬ claimLPFeasible [{0}] [0] [2] := by
  constructor
  · constructor
    · intro i hi
      simp only [buildLP, List.length_map, List.length_cons, List.length_nil] at hi
      interval_cases i
      show dotProd [-1] [2] ≤ ((-1 : Int) : ℚ)
      simp only [dotProd, List.zip_cons_cons, List.zip_nil_right, List.foldr_cons,
        List.foldr_nil]
      push_cast
      norm_num
    · intro j hj
      simp only [List.length_cons, List.length_nil] at hj
      interval_cases j
      exact ⟨by decide, fun u hu => by cases hu⟩
  · intro h
    have h2 := (h.2 0 (by decide)).2
    revert h2
    decide

/-- C6 amended: the built LP has one variable per candidate location
(`c = [1] * m`, every row of width `m`), objective minimize the sum of
the variables, and for the `i`-th universe element one constraint row
that holds at a point `x` exactly when the total weight on the locations
containing that element is at least 1; the variables are bounded below
by 0 with no upper bound (scipy's default), not confined to `[0, 1]`. -/
theorem C6_amended_lp_structure (sets : List (Finset ℕ)) (universeL : List ℕ)
    (i : ℕ) (x : List ℚ) (hi : i < universeL.length) :
    (buildLP sets universeL).c = List.replicate sets.length 1 ∧
    ((buildLP sets universeL).lb = 0 ∧ (buildLP sets universeL).ub = none) ∧
    ((buildLP sets universeL).A_ub.length = universeL.length ∧
      ∀ row ∈ (buildLP sets universeL).A_ub, row.length = sets.length) ∧
    (dotProd ((buildLP sets universeL).A_ub.getD i []) x ≤
        (((buildLP sets universeL).b_ub.getD i 0 : Int) : ℚ) ↔
      1 ≤ coverSum sets (universeL.getD i 0) x) := by
  refine ⟨rfl, ⟨rfl, rfl⟩, ⟨by simp [buildLP], ?_⟩, ?_⟩
  · intro row hrow
    simp only [buildLP, List.mem_map] at hrow
    obtain ⟨e, _, rfl⟩ := hrow
    simp
  · have hrow : (buildLP sets universeL).A_ub.getD i [] =
        sets.map (fun s => if universeL.getD i 0 ∈ s then (-1 : Int) else 0) := by
      simp only [buildLP]
      rw [List.getD_eq_getElem?_getD, List.getElem?_map,
        List.getElem?_eq_getElem hi, List.getD_eq_getElem?_getD,
        List.getElem?_eq_getElem hi]
      rfl
    have hb : (buildLP sets universeL).b_ub.getD i 0 = -1 := by
      simp only [buildLP]
      rw [List.getD_eq_getElem?_getD, List.getElem?_map, List.getElem?_eq_getElem hi]
      rfl
    rw [hrow, hb, dotProd_cover_row]
    constructor
    · intro h
      have := neg_le_neg h
      simpa using this
    · intro h
      have := neg_le_neg h
      push_cast
      simpa using this

/-- C6 amended witness: for the two-element instance `sets = [{0}, {1}]`
with universe `[0, 1]`, row 1 at the point `[1/2, 3]` holds iff the
weight on the locations containing element 1 is at least 1. -/
theorem C6_amended_lp_structure_witness :
    (1 < ([0, 1] : List ℕ).length) ∧
    ((buildLP [{0}, {1}] [0, 1]).c = List.replicate 2 1 ∧
     ((buildLP [{0}, {1}] [0, 1]).lb = 0 ∧ (buildLP [{0}, {1}] [0, 1]).ub = none) ∧
     ((buildLP [{0}, {1}] [0, 1]).A_ub.length = ([0, 1] : List ℕ).length ∧
       ∀ row ∈ (buildLP [{0}, {1}] [0, 1]).A_ub, row.length = 2) ∧
     (dotProd ((buildLP [{0}, {1}] [0, 1]).A_ub.getD 1 []) [mkRat 1 2, 3] ≤
         (((buildLP [{0}, {1}] [0, 1]).b_ub.getD 1 0 : Int) : ℚ) ↔
       1 ≤ coverSum [{0}, {1}] (([0, 1] : List ℕ).getD 1 0) [mkRat 1 2, 3])) :=
  ⟨by decide, C6_amended_lp_structure [{0}, {1}] [0, 1] 1 [mkRat 1 2, 3] (by decide)⟩

/-- C7 counterexample: for the deck-list `["2 Bolt", "3 Ponder"]` both
lines fail the `1 (.*)` shape, but the failure report names only the
first one; the equally offending second line is absent, refuting "lists
every offending line". -/
theorem C7_counterexample_only_first_line_reported :
    parseReported ["2 Bolt", "3 Ponder"] = ["2 Bolt".data] ∧
    parseCardLine "3 Ponder" = none ∧
    "3 Ponder".data ∉ parseReported ["2 Bolt", "3 Ponder"] := by
  decide

/-- C7 amended: any deck-list containing a line that fails the
`1 (.*)` shape is rejected as fatal (the parse returns an error instead
of a card list, before any store access), and the report names exactly
the first offending line. -/
theorem C7_amended_first_bad_line_fatal (ls : List String)
    (h : ∃ l ∈ ls, parseCardLine l = none) :
    ∃ pre bad post, ls = pre ++ bad :: post ∧ parseCardLine bad = none ∧
      (∀ l ∈ pre, parseCardLine l ≠ none) ∧
      parseCards ls = Except.error (strip bad) := by
  induction ls with
  | nil => obtain ⟨l, hl, _⟩ := h; cases hl
  | cons c rest ih =>
    cases hc : parseCardLine c with
    | none =>
      exact ⟨[], c, rest, rfl, hc, by simp, by simp [parseCards, hc]⟩
    | some nm =>
      have h2 : ∃ l ∈ rest, parseCardLine l = none := by
        obtain ⟨l, hl, hln⟩ := h
        rcases List.mem_cons.mp hl with rfl | hl
        · rw [hc] at hln; cases hln
        · exact ⟨l, hl, hln⟩
      obtain ⟨pre, bad, post, hsplit, hbad, hpre, herr⟩ := ih h2
      refine ⟨c :: pre, bad, post, by rw [hsplit, List.cons_append], hbad, ?_, ?_⟩
      · intro l hl
        rcases List.mem_cons.mp hl with rfl | hl
        · rw [hc]; exact fun hcon => by cases hcon
        · exact hpre l hl
      · simp [parseCards, hc, herr, Except.map]

/-- C7 amended witness: in `["1 Bolt", "Ponder x", "zz"]` the second
line is the first offender and the parse fails naming exactly it. -/
theorem C7_amended_first_bad_line_fatal_witness :
    (∃ l ∈ ["1 Bolt", "Ponder x", "zz"], parseCardLine l = none) ∧
    (∃ pre bad post, ["1 Bolt", "Ponder x", "zz"] = pre ++ bad :: post ∧
      parseCardLine bad = none ∧ (∀ l ∈ pre, parseCardLine l ≠ none) ∧
      parseCards ["1 Bolt", "Ponder x", "zz"] = Except.error (strip bad)) :=
  ⟨⟨"Ponder x", by decide, by decide⟩,
   C7_amended_first_bad_line_fatal ["1 Bolt", "Ponder x", "zz"]
     ⟨"Ponder x", by decide, by decide⟩⟩

/-- C3: the target-location filter of the search branch removes the
wrong names.  In `c3db` the request is `["A", "B"]` and the target
location 1 holds only `A`; the claim (and the source's own comment
`remove cards already in collection`) demands the result `["B"]`, but
the filter erases every requested name NOT present at the target and
returns `["A"]`.  (The earlier pre-filter at lines 909-918 reads the
undefined name `location` and would raise `NameError` before this point;
this theorem evaluates the 932-938 filter the claim's sources name.) -/
theorem C3_target_filter_inverted :
    removeCardsAtTarget c3db ["A", "B"] 1 = ["A"] ∧
    removeCardsAtTarget c3db ["A", "B"] 1 ≠ ["B"] := by
  decide

/-- C4: declining the create-location confirmation does NOT cancel the
pending add.  From empty stores, adding one copy of `card1` with the
unknown location token `Deck[A]` and answering the New-Location dialog
with `no` still inserts one collection row (with NULL location) and
pushes an `Add` transaction; the dialog list certifies the dialog was
raised (and, per the event's `answerCreate := false`, declined).  The
source never checks `check_target_location` for `None` on this path,
although the move path does. -/
theorem C4_declined_location_dialog_still_inserts :
    (step emptyApp (Event.add "card1" "en" (some ("Deck", "A")) 1 false true)).2 =
      [Dialog.newLocation] ∧
    (step emptyApp (Event.add "card1" "en" (some ("Deck", "A")) 1 false true)).1.db.collection =
      [{ id := 1, card_id := "card1", language := "en", location := none }] ∧
    (step emptyApp (Event.add "card1" "en" (some ("Deck", "A")) 1 false true)).1.transactions =
      [TransRec.collection [1]] := by
  decide

/-- C8: case-insensitive resolution breaks down at the coverage query.
In `c8db` the catalog owns `Lightning Bolt` with one copy at location 1;
the request `["lightning bolt"]` passes the `missing_cards` check (the
`lower()` comparison matches), but the coverage query joins on the
case-sensitive `json.value = cards.name`, finds nothing, and the
universe stays empty — so the source's own
`assert len(universe) == len(cards)` fails and no plan is computed,
instead of the claimed full resolution. -/
theorem C8_case_insensitive_match_breaks_coverage :
    missing_cards c8db ["lightning bolt"] = [] ∧
    (universeOf (coverageSetsOf c8db ["lightning bolt"])).card ≠
      (["lightning bolt"] : List String).length := by
  decide

/-- C10: a non-positive quantity returns from `search_action` before the
location check, before any dialog, before any insert and before any
transaction push: the session state is returned unchanged and no dialog
is raised. -/
theorem C10_nonpositive_add_is_silent_noop (s : AppState) (scry_id lan : String)
    (tok : Option (String × String)) (n : Int) (ac ao : Bool) (hn : n ≤ 0) :
    search_action s scry_id lan tok n ac ao = (s, []) := by
  unfold search_action
  rw [if_pos hn]

/-- C10 witness: adding zero copies to a fresh session is a silent
no-op. -/
theorem C10_nonpositive_add_is_silent_noop_witness :
    ((0 : Int) ≤ 0) ∧
    search_action emptyApp "card1" "en" (some ("Deck", "A")) 0 true true =
      (emptyApp, []) :=
  ⟨by decide,
   C10_nonpositive_add_is_silent_noop emptyApp "card1" "en" (some ("Deck", "A")) 0 true true
     (by decide)⟩

theorem setLocations_reassigns (db : DBState) (mids : List Nat) (L : Nat) :
    ∀ r ∈ (setLocations db mids L).collection, r.id ∈ mids → r.location = some L := by
  intro r hr hid
  simp only [setLocations, List.mem_map] at hr
  obtain ⟨r0, _, hr0⟩ := hr
  by_cases hc : mids.contains r0.id = true
  · rw [if_pos hc] at hr0
    rw [← hr0]
  · rw [if_neg hc] at hr0
    subst hr0
    exact absurd hid (by simpa using hc)

/-- C9: preconditions of the move operation.  If the requested count
exceeds the entries at the source for that card, the whole session state
is returned untouched (only the too-many dialog shows).  If the resolved
destination equals the source, the state is exactly the
post-resolution state, whose collection store is unchanged and whose
stack got no `Move` record.  Otherwise exactly `nr` entries — the first
`nr` at the source — are reassigned to the destination, each reassigned
row ends at the destination, and exactly one `Move` record is pushed. -/
theorem C9_move_preconditions (s : AppState) (scry_id : String) (from_id : Nat)
    (nr : Nat) (tok : Option (String × String)) (ac : Bool) :
    ((entriesAt s.db from_id scry_id).length < nr →
      move_card s scry_id from_id nr tok ac = (s, [Dialog.tooMany])) ∧
    (nr ≤ (entriesAt s.db from_id scry_id).length →
      (check_target_location s tok ac).1 = some from_id →
      (move_card s scry_id from_id nr tok ac).1 = (check_target_location s tok ac).2.1 ∧
      (check_target_location s tok ac).2.1.db.collection = s.db.collection) ∧
    (∀ L, nr ≤ (entriesAt s.db from_id scry_id).length →
      (check_target_location s tok ac).1 = some L → L ≠ from_id →
      (move_card s scry_id from_id nr tok ac).1.db =
        setLocations (check_target_location s tok ac).2.1.db
          (((entriesAt s.db from_id scry_id).take nr).map (fun r => r.id)) L ∧
      (move_card s scry_id from_id nr tok ac).1.transactions =
        (check_target_location s tok ac).2.1.transactions ++
          [TransRec.move (((entriesAt s.db from_id scry_id).take nr).map (fun r => r.id))
            from_id L] ∧
      (((entriesAt s.db from_id scry_id).take nr).map (fun r => r.id)).length = nr ∧
      (∀ r ∈ (move_card s scry_id from_id nr tok ac).1.db.collection,
        r.id ∈ ((entriesAt s.db from_id scry_id).take nr).map (fun r2 => r2.id) →
        r.location = some L)) := by
  have hent : entriesAt (check_target_location s tok ac).2.1.db from_id scry_id =
      entriesAt s.db from_id scry_id := by
    simp only [entriesAt, check_target_location_collection]
  refine ⟨?_, ?_, ?_⟩
  · intro hlt
    simp only [move_card]
    rw [if_pos hlt]
  · intro hle heq
    constructor
    · simp only [move_card]
      rw [if_neg (Nat.not_lt.mpr hle), heq]
      simp only [beq_self_eq_true, if_true]
    · exact check_target_location_collection s tok ac
  · intro L hle heq hne
    have hbeq : (L == from_id) = false := beq_eq_false_iff_ne.mpr hne
    have hmove : move_card s scry_id from_id nr tok ac =
        ({ db := setLocations (check_target_location s tok ac).2.1.db
             (((entriesAt s.db from_id scry_id).take nr).map (fun r => r.id)) L,
           transactions := (check_target_location s tok ac).2.1.transactions ++
             [TransRec.move
               (((entriesAt s.db from_id scry_id).take nr).map (fun r => r.id))
               from_id L] },
         (check_target_location s tok ac).2.2) := by
      simp only [move_card]
      rw [if_neg (Nat.not_lt.mpr hle), heq]
      simp only [hbeq, Bool.false_eq_true, if_false, hent]
    refine ⟨by rw [hmove], by rw [hmove], ?_, ?_⟩
    · simp only [List.length_map, List.length_take]
      omega
    · intro r hr hid
      rw [hmove] at hr
      exact setLocations_reassigns _ _ _ r hr hid

/-- C9 witness: in `moveApp` (two copies of `c` at location 1, location
2 existing) the three branches are exercised at concrete inputs: moving
5 copies fails untouched; moving 1 copy onto the source location 1 stays
at the post-resolution state; moving 1 copy to location 2 reassigns
exactly row 1 and pushes one `Move` record. -/
theorem C9_move_preconditions_witness :
    ((entriesAt moveApp.db 1 "c").length < 5 ∧
     move_card moveApp "c" 1 5 (some ("Box", "B")) false = (moveApp, [Dialog.tooMany])) ∧
    (1 ≤ (entriesAt moveApp.db 1 "c").length ∧
     (check_target_location moveApp (some ("Box", "A")) false).1 = some 1 ∧
     (move_card moveApp "c" 1 1 (some ("Box", "A")) false).1 =
       (check_target_location moveApp (some ("Box", "A")) false).2.1 ∧
     (check_target_location moveApp (some ("Box", "A")) false).2.1.db.collection =
       moveApp.db.collection) ∧
    ((check_target_location moveApp (some ("Box", "B")) false).1 = some 2 ∧ (2 : ℕ) ≠ 1 ∧
     (move_card moveApp "c" 1 1 (some ("Box", "B")) false).1.db =
       setLocations (check_target_location moveApp (some ("Box", "B")) false).2.1.db
         (((entriesAt moveApp.db 1 "c").take 1).map (fun r => r.id)) 2 ∧
     (move_card moveApp "c" 1 1 (some ("Box", "B")) false).1.transactions =
       (check_target_location moveApp (some ("Box", "B")) false).2.1.transactions ++
         [TransRec.move (((entriesAt moveApp.db 1 "c").take 1).map (fun r => r.id)) 1 2] ∧
     (((entriesAt moveApp.db 1 "c").take 1).map (fun r => r.id)).length = 1) :=
  ⟨⟨by decide,
    (C9_move_preconditions moveApp "c" 1 5 (some ("Box", "B")) false).1 (by decide)⟩,
   ⟨by decide, by decide,
    (C9_move_preconditions moveApp "c" 1 1 (some ("Box", "A")) false).2.1
      (by decide) (by decide)⟩,
   by decide, by decide,
   ((C9_move_preconditions moveApp "c" 1 1 (some ("Box", "B")) false).2.2 2
      (by decide) (by decide) (by decide)).1,
   ((C9_move_preconditions moveApp "c" 1 1 (some ("Box", "B")) false).2.2 2
      (by decide) (by decide) (by decide)).2.1,
   ((C9_move_preconditions moveApp "c" 1 1 (some ("Box", "B")) false).2.2 2
      (by decide) (by decide) (by decide)).2.2.1⟩

theorem undo_transactions_shape (s : AppState) (tab : Tab) (ans : Bool) :
    (undo_last_transaction s tab ans).1.transactions = s.transactions ∨
    ((undo_last_transaction s tab ans).1.transactions = s.transactions.dropLast ∧
      s.transactions ≠ []) := by
  have hne : ∀ t, s.transactions.getLast? = some t → s.transactions ≠ [] := by
    intro t ht hnil
    rw [hnil] at ht
    cases ht
  cases tab
  · simp only [undo_last_transaction]
    split
    · next ids heq =>
      split
      · exact Or.inr ⟨rfl, hne _ heq⟩
      · exact Or.inl rfl
    · next ids heq =>
      split
      · exact Or.inl rfl
      · split
        · exact Or.inr ⟨rfl, hne _ heq⟩
        · exact Or.inl rfl
    · exact Or.inl rfl
  · simp only [undo_last_transaction]
    split
    · next ids old cur heq =>
      split
      · exact Or.inr ⟨rfl, hne _ heq⟩
      · exact Or.inl rfl
    · exact Or.inl rfl

/-- C5: the undo stack obeys the append/pop discipline and undo is
strictly single-level.  Every event either leaves the stack unchanged,
appends one record (a plain push), appends two records in sequence (an
add that first had to create its location: two pushes, still only at
the end), or removes exactly the top record (a confirmed undo, which
inspects only `transactions[-1]`).  With exactly one prior record on the
stack a confirmed undo on its tab empties it, and with an empty stack
any undo is a complete no-op returning the unchanged state. -/
theorem C5_undo_stack_append_pop_single_level :
    (∀ (s : AppState) (ev : Event),
      (step s ev).1.transactions = s.transactions ∨
      (∃ t, (step s ev).1.transactions = s.transactions ++ [t]) ∨
      (∃ t1 t2, (step s ev).1.transactions = s.transactions ++ [t1, t2]) ∨
      ((step s ev).1.transactions = s.transactions.dropLast ∧ s.transactions ≠ [])) ∧
    (∀ (s : AppState) (t : TransRec), pushedRec t → s.transactions = [t] →
      (step s (Event.undo (undoTab t) true)).1.transactions = []) ∧
    (∀ (s : AppState) (tab : Tab) (ans : Bool), s.transactions = [] →
      step s (Event.undo tab ans) = (s, [])) := by
  refine ⟨?_, ?_, ?_⟩
  · intro s ev
    cases ev with
    | add scry_id lan tok n ac ao =>
      simp only [step, search_action]
      split
      · exact Or.inl rfl
      · rcases check_target_location_transactions s tok ac with h | ⟨t, h⟩
        · split
          · split
            · exact Or.inr (Or.inl ⟨_, by rw [h]⟩)
            · exact Or.inl h
          · exact Or.inr (Or.inl ⟨_, by rw [h]⟩)
        · split
          · split
            · exact Or.inr (Or.inr (Or.inl ⟨t, _, by rw [h, List.append_assoc]; rfl⟩))
            · exact Or.inr (Or.inl ⟨t, h⟩)
          · exact Or.inr (Or.inr (Or.inl ⟨t, _, by rw [h, List.append_assoc]; rfl⟩))
    | move scry_id from_id nr tok ac =>
      simp only [step, move_card]
      split
      · exact Or.inl rfl
      · rcases check_target_location_transactions s tok ac with h | ⟨t, h⟩ <;> split
        · exact Or.inl h
        · split
          · exact Or.inl h
          · exact Or.inr (Or.inl ⟨_, by rw [h]⟩)
        · exact Or.inr (Or.inl ⟨t, h⟩)
        · split
          · exact Or.inr (Or.inl ⟨t, h⟩)
          · exact Or.inr (Or.inr (Or.inl ⟨t, _, by rw [h, List.append_assoc]; rfl⟩))
    | undo tab ans =>
      rcases undo_transactions_shape s tab ans with h | h
      · exact Or.inl h
      · exact Or.inr (Or.inr (Or.inr h))
  · intro s t hpush hst
    cases t with
    | collection ids =>
      simp [step, undoTab, undo_last_transaction, hst]
    | location ids =>
      cases ids with
      | nil => simp [pushedRec] at hpush
      | cons i rest =>
        simp [step, undoTab, undo_last_transaction, hst]
    | move ids old cur =>
      simp [step, undoTab, undo_last_transaction, hst]
  · intro s tab ans h
    cases tab <;> simp [step, undo_last_transaction, h]

/-- C5 witness: in `oneAddApp` (exactly one `Add` record) a confirmed
undo on the Add tab empties the stack, and in the fresh session a
further undo is a complete no-op; the discipline conjunct is applied at
a concrete push event. -/
theorem C5_undo_stack_append_pop_single_level_witness :
    (pushedRec (TransRec.collection [1]) ∧ oneAddApp.transactions = [TransRec.collection [1]] ∧
     (step oneAddApp (Event.undo (undoTab (TransRec.collection [1])) true)).1.transactions = []) ∧
    (emptyApp.transactions = [] ∧ step emptyApp (Event.undo Tab.add true) = (emptyApp, [])) ∧
    ((step emptyApp (Event.add "c" "en" none 1 true true)).1.transactions = emptyApp.transactions ∨
     (∃ t, (step emptyApp (Event.add "c" "en" none 1 true true)).1.transactions =
        emptyApp.transactions ++ [t]) ∨
     (∃ t1 t2, (step emptyApp (Event.add "c" "en" none 1 true true)).1.transactions =
        emptyApp.transactions ++ [t1, t2]) ∨
     ((step emptyApp (Event.add "c" "en" none 1 true true)).1.transactions =
        emptyApp.transactions.dropLast ∧ emptyApp.transactions ≠ [])) :=
  ⟨⟨trivial, rfl,
    C5_undo_stack_append_pop_single_level.2.1 oneAddApp (TransRec.collection [1]) trivial rfl⟩,
   ⟨rfl, C5_undo_stack_append_pop_single_level.2.2 emptyApp Tab.add true rfl⟩,
   C5_undo_stack_append_pop_single_level.1 emptyApp (Event.add "c" "en" none 1 true true)⟩

end SmallSrcyDB
